import Mathlib

/-!
Shallow embedding of the RAG orchestration core of the `chatbot-support`
repository (backend/app/core/llm_providers.py, backend/app/models/embeddings.py,
backend/app/models/vector_store.py, backend/app/models/rag_engine.py), together
with theorems settling the specification claims about it.

Python floats are modelled as rationals; a floating-point value that is not
finite (NaN or an infinity) is modelled as `none` in `Option ℚ`, and the
arithmetic helpers below propagate `none` the way IEEE non-finite values
propagate through the operations the code uses.  Python dictionaries are
modelled as insertion-ordered association lists.
-/

set_option autoImplicit false

namespace ChatbotSupport

/- ===================================================================
   LLM generation router: `LLMManager.generate_response`
   (src/backend/app/core/llm_providers.py, lines 242-321)
   =================================================================== -/

/-- The result dictionary produced by a provider's `generate_response` and by
`LLMManager.generate_response`: `content`, `model`, optional `tokens_used`,
`success`, optional `error`. -/
structure GenResult where
  content : Option String
  model : String
  tokens_used : Option Nat
  success : Bool
  error : Option String
deriving Repr, DecidableEq

/-- Outcome of invoking one provider's `generate_response`: either the returned
result dictionary, or a raised exception. -/
inductive AttemptOutcome where
  | returns (r : GenResult)
  | raises (e : String)
deriving Repr, DecidableEq

/-- The settings the router reads: `settings.default_model` and
`settings.fallback_models` (src/backend/app/core/config.py, lines 25-26). -/
structure RouterConfig where
  default_model : String
  fallback_models : List String
deriving Repr, DecidableEq

/-- The repository defaults: `default_model = "gigachat"`,
`fallback_models = ["deepseek", "openai"]`. -/
def defaultRouterConfig : RouterConfig :=
  { default_model := "gigachat", fallback_models := ["deepseek", "openai"] }

/-- `model_order` as built by `LLMManager.generate_response` (llm_providers.py,
lines 274-284).  `providers` is the list of configured backend names (the keys
of `self.providers`).  A missing `preferred_model` (Python `None`) and the
empty string are both falsy in `if preferred_model and preferred_model in
self.providers`, so both are modelled by `preferred = ""`. -/
def modelOrder (cfg : RouterConfig) (providers : List String)
    (preferred : String) : List String :=
  if preferred ≠ "" ∧ preferred ∈ providers then
    preferred ::
      cfg.fallback_models.filter (fun m => decide (m ∈ providers ∧ m ≠ preferred))
  else
    cfg.default_model ::
      cfg.fallback_models.filter
        (fun m => decide (m ∈ providers ∧ m ≠ cfg.default_model))

/-- The sentinel dictionary returned when the attempt loop exhausts every
backend (llm_providers.py, lines 307-313). -/
def fallbackResult : GenResult :=
  { content := some "Извините, в данный момент сервис недоступен. Попробуйте позже."
    model := "fallback"
    tokens_used := none
    success := false
    error := some "Все модели недоступны" }

/-- Whether the attempt on backend `m` succeeds: the provider returned a
dictionary with `success = true` (an exception counts as a failure). -/
def attemptSucceeds (outcome : String → AttemptOutcome) (m : String) : Bool :=
  match outcome m with
  | .returns r => r.success
  | .raises _ => false

/-- The dictionary returned by a backend whose attempt succeeded. -/
def attemptResult (outcome : String → AttemptOutcome) (m : String) : GenResult :=
  match outcome m with
  | .returns r => r
  | .raises _ => fallbackResult

/-- The attempt loop of `LLMManager.generate_response` (llm_providers.py, lines
286-313), instrumented with the list of backends actually invoked.  A backend
not in `providers` is skipped without being invoked; a returned dictionary with
`success = true` is returned immediately; a failure or an exception moves on to
the next backend; an exhausted loop returns `fallbackResult`. -/
def tryModels (providers : List String) (outcome : String → AttemptOutcome) :
    List String → GenResult × List String
  | [] => (fallbackResult, [])
  | m :: rest =>
    if m ∈ providers then
      match outcome m with
      | .returns r =>
        if r.success then (r, [m])
        else
          let p := tryModels providers outcome rest
          (p.1, m :: p.2)
      | .raises _ =>
        let p := tryModels providers outcome rest
        (p.1, m :: p.2)
    else tryModels providers outcome rest

/-- `LLMManager.generate_response`: build the attempt order, then run the
attempt loop; only the result dictionary is returned to the caller. -/
def generate_response (cfg : RouterConfig) (providers : List String)
    (outcome : String → AttemptOutcome) (preferred : String) : GenResult :=
  (tryModels providers outcome (modelOrder cfg providers preferred)).1

/- ===================================================================
   Embeddings and hybrid search (src/backend/app/models/embeddings.py)
   =================================================================== -/

/-- Multiplication on modelled floats (`Option ℚ`, `none` = non-finite): a
non-finite operand propagates. -/
def efMul : Option ℚ → Option ℚ → Option ℚ
  | some a, some b => some (a * b)
  | _, _ => none

/-- Addition on modelled floats: a non-finite operand propagates. -/
def efAdd : Option ℚ → Option ℚ → Option ℚ
  | some a, some b => some (a + b)
  | _, _ => none

/-- Division on modelled floats: division by zero produces a non-finite value
(numpy emits a RuntimeWarning and yields NaN or an infinity — it does not
raise), and a non-finite operand propagates. -/
def efDiv : Option ℚ → Option ℚ → Option ℚ
  | some a, some b => if b = 0 then none else some (a / b)
  | _, _ => none

/-- `np.dot` on two already-normalised vectors. -/
def efDot (v1 v2 : List (Option ℚ)) : Option ℚ :=
  (List.zipWith efMul v1 v2).foldl efAdd (some 0)

/-- `np.linalg.norm`: the Euclidean norm.  The floating-point square root is
kept abstract as `sqrtQ`; the development only relies on `sqrtQ 0 = 0`, which
is exact for IEEE sqrt. -/
def npNorm (sqrtQ : ℚ → ℚ) (v : List ℚ) : ℚ :=
  sqrtQ ((v.map fun x => x * x).sum)

/-- `EmbeddingModel.calculate_similarity` (embeddings.py, lines 51-66): each
vector is divided componentwise by its own norm and the dot product of the two
normalised vectors is returned.  The `except` branch (which would return
`0.0`) is unreachable on the division path: numpy division by a zero norm only
warns and produces non-finite components, so the non-finite value flows
through `np.dot` into the returned similarity. -/
def calculate_similarity (sqrtQ : ℚ → ℚ) (embedding1 embedding2 : List ℚ) :
    Option ℚ :=
  let vec1_norm :=
    embedding1.map fun x => efDiv (some x) (some (npNorm sqrtQ embedding1))
  let vec2_norm :=
    embedding2.map fun x => efDiv (some x) (some (npNorm sqrtQ embedding2))
  efDot vec1_norm vec2_norm

/-- The metadata dictionary of a document chunk, as far as the hybrid search
reads it: the optional `id` entry (modelled as a string identifier). -/
structure DocMeta where
  id : Option String
deriving Repr, DecidableEq, Inhabited

/-- A document dictionary as consumed by `HybridSearch`: its `text` entry and
its `metadata` entry. -/
structure Doc where
  text : String
  metadata : DocMeta
deriving Repr, DecidableEq, Inhabited

/-- Python `text.lower().split()`: lower-case, split on whitespace runs,
discarding empty pieces (computed on the underlying character list). -/
def pyWords (s : String) : List String :=
  (((s.data.map Char.toLower).splitOnP Char.isWhitespace).map
    (fun w => String.mk w)).filter (fun w => w ≠ "")

/-- The lower-cased whitespace word set of a string (`set(...)`). -/
def wordSet (s : String) : Finset String := (pyWords s).toFinset

/-- The score `HybridSearch.keyword_search` assigns one document
(embeddings.py, lines 166-177):
`len(intersection) / len(query_words) if query_words else 0`. -/
def keywordScore (query : String) (doc : Doc) : ℚ :=
  if wordSet query ≠ ∅ then
    ((wordSet query ∩ wordSet doc.text).card : ℚ) / ((wordSet query).card : ℚ)
  else 0

/-- Stable insertion of `a` into a list sorted descending by `key`: `a` goes in
front of the first element whose key is not larger, so that among equal keys an
earlier element of the original list stays first — the stability guarantee of
Python's `list.sort(key=..., reverse=True)`. -/
def insertDescBy {α : Type} (key : α → ℚ) (a : α) : List α → List α
  | [] => [a]
  | b :: l => if key b ≤ key a then a :: b :: l else b :: insertDescBy key a l

/-- Stable sort, descending by `key` (Python `list.sort(key=..., reverse=True)`). -/
def sortDescBy {α : Type} (key : α → ℚ) (l : List α) : List α :=
  l.foldr (insertDescBy key) []

/-- One entry of `keyword_search`'s result list. -/
structure KwRes where
  document : Doc
  keyword_score : ℚ
deriving Repr, DecidableEq, Inhabited

/-- `HybridSearch.keyword_search` (embeddings.py, lines 159-184): score every
document, sort by score descending, keep the first `top_k`. -/
def keyword_search (query : String) (documents : List Doc) (top_k : Nat) :
    List KwRes :=
  let scored_docs := documents.map fun doc =>
    ({ document := doc, keyword_score := keywordScore query doc } : KwRes)
  (sortDescBy (fun r => r.keyword_score) scored_docs).take top_k

/-- One entry of `find_most_similar`'s result list: the candidate's position in
the document list and its (possibly non-finite) cosine similarity. -/
structure VecRes where
  index : Nat
  similarity : Option ℚ
deriving Repr, DecidableEq, Inhabited

/-- One value of the `combined_scores` dictionary of
`HybridSearch.hybrid_search`. -/
structure MergedEntry where
  document : Doc
  vector_score : Option ℚ
  keyword_score : ℚ
  combined_score : Option ℚ
deriving Repr, DecidableEq, Inhabited

/-- A key of the `combined_scores` dictionary: `metadata["id"]` when present (a
string identifier), otherwise the positional index (vector branch) or
`hash(str(doc))` (keyword branch), both Python ints. -/
inductive DocKey where
  | intKey (z : ℤ)
  | strKey (s : String)
deriving Repr, DecidableEq, Inhabited

/-- The `combined_scores` dictionary: an insertion-ordered association list. -/
abbrev ScoreMap := List (DocKey × MergedEntry)

/-- Dictionary lookup. -/
def alookup (k : DocKey) : ScoreMap → Option MergedEntry
  | [] => none
  | p :: ps => if p.1 = k then some p.2 else alookup k ps

/-- `combined_scores[doc_id]["vector_score"] = v`: in-place update. -/
def asetVec (k : DocKey) (v : Option ℚ) (m : ScoreMap) : ScoreMap :=
  m.map fun p => if p.1 = k then (p.1, { p.2 with vector_score := v }) else p

/-- `combined_scores[doc_id]["keyword_score"] = v`: in-place update. -/
def asetKw (k : DocKey) (v : ℚ) (m : ScoreMap) : ScoreMap :=
  m.map fun p => if p.1 = k then (p.1, { p.2 with keyword_score := v }) else p

/-- The key the vector branch uses for the document at position `i`:
`doc.get("metadata", {}).get("id", doc_index)` (embeddings.py, line 209). -/
def vecDocKey (doc : Doc) (i : Nat) : DocKey :=
  match doc.metadata.id with
  | some s => .strKey s
  | none => .intKey i

/-- The key the keyword branch uses:
`doc.get("metadata", {}).get("id", hash(str(doc)))` (embeddings.py, line 224),
with Python's seeded string hash kept abstract as `pyHash`. -/
def kwDocKey (pyHash : Doc → ℤ) (doc : Doc) : DocKey :=
  match doc.metadata.id with
  | some s => .strKey s
  | none => .intKey (pyHash doc)

/-- First merge loop of `hybrid_search` (embeddings.py, lines 205-219): fold in
the vector results, creating an entry with `keyword_score = 0.0` for a new key
and overwriting `vector_score` for an existing one. -/
def addVectorResults (documents : List Doc) (m : ScoreMap)
    (vres : List VecRes) : ScoreMap :=
  vres.foldl
    (fun m r =>
      if (alookup (vecDocKey (documents.getD r.index default) r.index) m).isSome then
        asetVec (vecDocKey (documents.getD r.index default) r.index) r.similarity m
      else
        m ++ [(vecDocKey (documents.getD r.index default) r.index,
          { document := documents.getD r.index default,
            vector_score := r.similarity, keyword_score := 0,
            combined_score := some 0 })])
    m

/-- Second merge loop (embeddings.py, lines 221-234): fold in the keyword
results, creating an entry with `vector_score = 0.0` for a new key and
overwriting `keyword_score` for an existing one. -/
def addKeywordResults (pyHash : Doc → ℤ) (m : ScoreMap)
    (kres : List KwRes) : ScoreMap :=
  kres.foldl
    (fun m r =>
      if (alookup (kwDocKey pyHash r.document) m).isSome then
        asetKw (kwDocKey pyHash r.document) r.keyword_score m
      else
        m ++ [(kwDocKey pyHash r.document,
          { document := r.document, vector_score := some 0,
            keyword_score := r.keyword_score,
            combined_score := some 0 })])
    m

/-- The full merge of the two scored lists into `combined_scores`. -/
def combineScoresMap (pyHash : Doc → ℤ) (documents : List Doc)
    (vres : List VecRes) (kres : List KwRes) : ScoreMap :=
  addKeywordResults pyHash (addVectorResults documents [] vres) kres

/-- The combined score (embeddings.py, lines 236-240):
`vector_weight * vector_score + (1 - vector_weight) * keyword_score`. -/
def combineScore (vector_weight : ℚ) (v : Option ℚ) (k : ℚ) : Option ℚ :=
  efAdd (efMul (some vector_weight) v) (efMul (some (1 - vector_weight)) (some k))

/-- The loop writing `combined_score` into every entry of `combined_scores`. -/
def scoreEntries (vector_weight : ℚ) (m : ScoreMap) : ScoreMap :=
  m.map fun p =>
    (p.1,
      { p.2 with
        combined_score :=
          combineScore vector_weight p.2.vector_score p.2.keyword_score })

/- ===================================================================
   Vector store search (src/backend/app/models/vector_store.py)
   =================================================================== -/

/-- Chunk metadata as read by the result formatting and prompt assembly. -/
structure HitMeta where
  title : Option String
  source_url : Option String
deriving Repr, DecidableEq, Inhabited

/-- One nearest-neighbour hit returned by the Chroma index for the query. -/
structure IndexHit where
  id : String
  text : String
  metadata : HitMeta
  distance : ℚ
deriving Repr, DecidableEq, Inhabited

/-- One formatted result of `ChromaVectorStore.search_similar`. -/
structure SearchResult where
  id : String
  text : String
  metadata : HitMeta
  distance : ℚ
  similarity : ℚ
deriving Repr, DecidableEq, Inhabited

/-- The result-formatting loop of `ChromaVectorStore.search_similar`
(vector_store.py, lines 104-116): each hit is surfaced with
`similarity = 1 - distance`, with no further adjustment. -/
def search_similar (hits : List IndexHit) : List SearchResult :=
  hits.map fun h =>
    { id := h.id, text := h.text, metadata := h.metadata,
      distance := h.distance, similarity := 1 - h.distance }

/- ===================================================================
   RAG engine and conversation manager (src/backend/app/models/rag_engine.py)
   =================================================================== -/

/-- A role-tagged message sent to a generation backend. -/
structure Message where
  role : String
  content : String
deriving Repr, DecidableEq, Inhabited

/-- The fixed system prompt of `RAGEngine._get_system_prompt` (rag_engine.py,
lines 16-30). -/
def system_prompt : String :=
  "Ты - помощник поддержки разработчиков. Твоя задача - помогать разработчикам решать технические вопросы, связанные с:\n\n1. CI/CD процессами и пайплайнами\n2. Разработкой и деплоем приложений\n3. Работой с базами данных и API\n4. Отладкой и решением проблем\n5. Лучшими практиками разработки\n\nИспользуй предоставленный контекст для формирования точных и полезных ответов. Если в контексте нет информации для ответа, честно скажи об этом и предложи обратиться к команде поддержки.\n\nОтвечай на русском языке, если вопрос задан на русском, и на английском, если вопрос задан на английском.\n\nФорматируй ответы с использованием Markdown для лучшей читаемости кода и команд."

/-- Python truthiness of a string read with `dict.get`: `None` and the empty
string are both falsy. -/
def pyTruthy (o : Option String) : Bool :=
  match o with
  | some s => s ≠ ""
  | none => false

/-- Two-decimal rendering of a float, for the Python format `{x:.2f}` used on
the similarity (ties are rendered half-up here; the exact tie behaviour of
CPython float formatting is irrelevant to the claims below). -/
def fmt2 (q : ℚ) : String :=
  let n : ℤ := round (q * 100)
  let a := n.natAbs
  (if n < 0 then "-" else "") ++ toString (a / 100) ++ "." ++
    (if a % 100 < 10 then "0" else "") ++ toString (a % 100)

/-- The lines `RAGEngine._format_context_for_prompt` emits for one result
(rag_engine.py, lines 138-153): a header with index and similarity, the source
line when a title or url is present, then the text. -/
def contextPartsFor (i : Nat) (result : SearchResult) : List String :=
  let source_info :=
    (if pyTruthy result.metadata.title then
      "Источник: " ++ result.metadata.title.getD "" else "") ++
    (if pyTruthy result.metadata.source_url then
      " (" ++ result.metadata.source_url.getD "" ++ ")" else "")
  ["--- Документ " ++ toString i ++ " (сходство: " ++ fmt2 result.similarity
      ++ ") ---"] ++
    (if source_info ≠ "" then [source_info] else []) ++
    [result.text ++ "\n"]

/-- `RAGEngine._format_context_for_prompt` (rag_engine.py, lines 132-155). -/
def _format_context_for_prompt (context_results : List SearchResult) : String :=
  if context_results = [] then ""
  else
    String.intercalate "\n"
      ((context_results.enum.map fun p => contextPartsFor (p.1 + 1) p.2).flatten)

/-- The context system message of `RAGEngine._build_messages` (rag_engine.py,
lines 113-118). -/
def contextMessage (context_results : List SearchResult) : Message :=
  { role := "system"
    content := "Контекст для ответа:\n\n" ++
      _format_context_for_prompt context_results ++
      "\n\nИспользуй эту информацию для формирования ответа." }

/-- `RAGEngine._build_messages` (rag_engine.py, lines 101-130): the fixed
system prompt; the context system message only when `context_results` is
non-empty; the session history as passed; the current query as the final user
message. -/
def _build_messages (query : String) (context_results : List SearchResult)
    (session_context : List Message) : List Message :=
  let messages := [({ role := "system", content := system_prompt } : Message)]
  let messages :=
    if context_results ≠ [] then messages ++ [contextMessage context_results]
    else messages
  let messages :=
    if session_context ≠ [] then messages ++ session_context else messages
  messages ++ [{ role := "user", content := query }]

/-- One element of `RAGResult.context_sources`
(`RAGEngine._format_context_sources`, rag_engine.py, lines 157-168). -/
structure SourceInfo where
  id : String
  title : String
  url : Option String
  similarity : ℚ
deriving Repr, DecidableEq, Inhabited

/-- `RAGEngine._format_context_sources`. -/
def _format_context_sources (context_results : List SearchResult) :
    List SourceInfo :=
  context_results.map fun r =>
    { id := r.id, title := r.metadata.title.getD "Неизвестный источник",
      url := r.metadata.source_url, similarity := r.similarity }

/-- `RAGEngine._format_similarity_scores` (rag_engine.py, lines 170-172). -/
def _format_similarity_scores (context_results : List SearchResult) : List ℚ :=
  context_results.map fun r => r.similarity

/-- The result dictionary of `RAGEngine.process_query`.  Keys missing from the
error-path dictionary (`tokens_used`, `context_sources`, `similarity_scores`)
are modelled as `Option` fields set to `none` there. -/
structure RAGResult where
  content : Option String
  model_used : String
  tokens_used : Option Nat
  response_time : ℚ
  context_sources : Option (List SourceInfo)
  similarity_scores : Option (List ℚ)
  success : Bool
  error : Option String
deriving Repr, DecidableEq

/-- `RAGEngine._retrieve_context` (rag_engine.py, lines 81-99): a raised
retrieval exception is absorbed into an empty context list. -/
def _retrieve_context (searchOutcome : Except String (List SearchResult)) :
    List SearchResult :=
  match searchOutcome with
  | .ok results => results
  | .error _ => []

/-- The `try` body of `RAGEngine.process_query` (rag_engine.py, lines 37-69):
retrieve context, build the messages, call the generation router (which may
itself raise, modelled by `gen` returning `Except.error`), and normalize the
answer.  `rt` is the measured elapsed time. -/
def processQueryBody (search : Except String (List SearchResult))
    (gen : List Message → Except String GenResult)
    (query : String) (session_context : List Message) (rt : ℚ) :
    Except String RAGResult := do
  let context_results := _retrieve_context search
  let messages := _build_messages query context_results session_context
  let llm_response ← gen messages
  pure
    { content := llm_response.content
      model_used := llm_response.model
      tokens_used := some (llm_response.tokens_used.getD 0)
      response_time := rt
      context_sources := some (_format_context_sources context_results)
      similarity_scores := some (_format_similarity_scores context_results)
      success := llm_response.success
      error :=
        if llm_response.success then none
        else some (llm_response.error.getD "Неизвестная ошибка") }

/-- The dictionary built by the `except` branch of `RAGEngine.process_query`
(rag_engine.py, lines 71-79). -/
def errorRAGResult (e : String) (rt : ℚ) : RAGResult :=
  { content := some "Извините, произошла ошибка при обработке вашего запроса. Попробуйте позже."
    model_used := "error"
    tokens_used := none
    response_time := rt
    context_sources := none
    similarity_scores := none
    success := false
    error := some e }

/-- `RAGEngine.process_query`: the `try` body with its `except` handler. -/
def process_query (search : Except String (List SearchResult))
    (gen : List Message → Except String GenResult)
    (query : String) (session_context : List Message) (rt : ℚ) : RAGResult :=
  match processQueryBody search gen query session_context rt with
  | .ok r => r
  | .error e => errorRAGResult e rt

/-- One stored conversation turn (a history dictionary with `role`, `content`
and, for turns written by `update_conversation_history`, a `timestamp`). -/
structure Turn where
  role : String
  content : String
  timestamp : ℚ
deriving Repr, DecidableEq, Inhabited

/-- `ConversationManager.max_context_length` (rag_engine.py, line 180). -/
def max_context_length : Nat := 10

/-- `ConversationManager._prepare_session_context` (rag_engine.py, lines
214-231): take the last `limit` turns, keep only `user`/`assistant` roles, and
map each to a role/content message. -/
def _prepare_session_context (limit : Nat)
    (conversation_history : List Turn) : List Message :=
  if conversation_history = [] then []
  else
    let recent_messages :=
      conversation_history.drop (conversation_history.length - limit)
    recent_messages.foldl
      (fun acc msg =>
        if msg.role = "user" ∨ msg.role = "assistant" then
          acc ++ [{ role := msg.role, content := msg.content }]
        else acc)
      []

/-- `ConversationManager.update_conversation_history` (rag_engine.py, lines
233-256), value level: copy the history, append the user turn and the
assistant turn, and keep only the last `2 * limit` turns. -/
def update_conversation_history (limit : Nat) (history : List Turn)
    (user_message assistant_response : String) (t1 t2 : ℚ) : List Turn :=
  let updated_history := history
  let updated_history := updated_history ++
    [{ role := "user", content := user_message, timestamp := t1 }]
  let updated_history := updated_history ++
    [{ role := "assistant", content := assistant_response, timestamp := t2 }]
  if updated_history.length > limit * 2 then
    updated_history.drop (updated_history.length - limit * 2)
  else updated_history

/-- A store of Python list objects, for observing aliasing: each cell is one
list object, named by its index. -/
structure PyListStore where
  cells : List (List Turn)
deriving Repr, DecidableEq, Inhabited

/-- Dereference a list object. -/
def getCell (σ : PyListStore) (r : Nat) : List Turn := σ.cells.getD r []

/-- Allocate a fresh list object holding `v`. -/
def allocCell (σ : PyListStore) (v : List Turn) : PyListStore × Nat :=
  (⟨σ.cells ++ [v]⟩, σ.cells.length)

/-- Mutate a list object in place. -/
def setCell (σ : PyListStore) (r : Nat) (v : List Turn) : PyListStore :=
  ⟨σ.cells.set r v⟩

/-- `ConversationManager.update_conversation_history`, store level:
`updated_history = history.copy() if history else []` allocates a fresh list
object either way; both `append` calls mutate only that fresh object; the
final slice `updated_history[-limit*2:]` allocates another fresh object and
rebinds the local name.  Returns the new store and the returned object. -/
def update_conversation_history_st (limit : Nat) (σ : PyListStore) (href : Nat)
    (user_message assistant_response : String) (t1 t2 : ℚ) :
    PyListStore × Nat :=
  let p1 := allocCell σ (getCell σ href)
  let σ2 := setCell p1.1 p1.2 (getCell p1.1 p1.2 ++
    [{ role := "user", content := user_message, timestamp := t1 }])
  let σ3 := setCell σ2 p1.2 (getCell σ2 p1.2 ++
    [{ role := "assistant", content := assistant_response, timestamp := t2 }])
  if (getCell σ3 p1.2).length > limit * 2 then
    allocCell σ3 ((getCell σ3 p1.2).drop ((getCell σ3 p1.2).length - limit * 2))
  else (σ3, p1.2)

/-- Outcome environment used by the closed router instances: `gigachat` fails,
`deepseek` raises, `openai` succeeds. -/
def routerWitnessOutcome (m : String) : AttemptOutcome :=
  if m = "openai" then
    .returns { content := some "ok", model := "openai", tokens_used := some 7,
               success := true, error := none }
  else if m = "deepseek" then
    .raises "boom"
  else
    .returns { content := none, model := m, tokens_used := none,
               success := false, error := some "503" }

/-- A concrete index hit and its surfaced search result, used by the closed
instances below. -/
def sampleHit : IndexHit :=
  { id := "d1", text := "t", metadata := ⟨none, none⟩, distance := 2 }

/-- The result `search_similar` produces for `sampleHit`. -/
def sampleHitResult : SearchResult :=
  { id := "d1", text := "t", metadata := ⟨none, none⟩, distance := 2,
    similarity := 1 - 2 }

/- ===================================================================
   Theorems
   =================================================================== -/

/-- Unfolding lemma: the attempt loop, expressed through the configured part of
the order and the first succeeding backend in it. -/
theorem tryModels_char (providers : List String) (outcome : String → AttemptOutcome)
    (order : List String) :
    tryModels providers outcome order =
      match (order.filter fun x => decide (x ∈ providers)).dropWhile
          (fun x => !attemptSucceeds outcome x) with
      | [] => (fallbackResult, order.filter fun x => decide (x ∈ providers))
      | m :: _ =>
        (attemptResult outcome m,
          ((order.filter fun x => decide (x ∈ providers)).takeWhile
            (fun x => !attemptSucceeds outcome x)) ++ [m]) := by
  induction order with
  | nil => rfl
  | cons m rest ih =>
    by_cases hm : m ∈ providers
    · have hfc : (m :: rest).filter (fun x => decide (x ∈ providers)) =
          m :: rest.filter (fun x => decide (x ∈ providers)) := by
        simp [List.filter_cons, hm]
      cases ho : outcome m with
      | returns r =>
        by_cases hs : r.success
        · have hsm : attemptSucceeds outcome m = true := by
            simp [attemptSucceeds, ho, hs]
          have hL : tryModels providers outcome (m :: rest) = (r, [m]) := by
            simp [tryModels, hm, ho, hs]
          rw [hL, hfc, List.dropWhile_cons, List.takeWhile_cons]
          simp [hsm, attemptResult, ho]
        · have hsm : attemptSucceeds outcome m = false := by
            simp [attemptSucceeds, ho, hs]
          have hL : tryModels providers outcome (m :: rest) =
              ((tryModels providers outcome rest).1,
                m :: (tryModels providers outcome rest).2) := by
            simp [tryModels, hm, ho, hs]
          rw [hL, hfc, List.dropWhile_cons, List.takeWhile_cons]
          simp only [hsm, Bool.not_false, if_true, ih]
          cases hd : List.dropWhile (fun x => !attemptSucceeds outcome x)
              (List.filter (fun x => decide (x ∈ providers)) rest) with
          | nil => simp [hd]
          | cons m2 tl => simp [hd]
      | raises e =>
        have hsm : attemptSucceeds outcome m = false := by
          simp [attemptSucceeds, ho]
        have hL : tryModels providers outcome (m :: rest) =
            ((tryModels providers outcome rest).1,
              m :: (tryModels providers outcome rest).2) := by
          simp [tryModels, hm, ho]
        rw [hL, hfc, List.dropWhile_cons, List.takeWhile_cons]
        simp only [hsm, Bool.not_false, if_true, ih]
        cases hd : List.dropWhile (fun x => !attemptSucceeds outcome x)
            (List.filter (fun x => decide (x ∈ providers)) rest) with
        | nil => simp [hd]
        | cons m2 tl => simp [hd]
    · have hfc : (m :: rest).filter (fun x => decide (x ∈ providers)) =
          rest.filter (fun x => decide (x ∈ providers)) := by
        simp [List.filter_cons, hm]
      have hL : tryModels providers outcome (m :: rest) =
          tryModels providers outcome rest := by
        simp [tryModels, hm]
      rw [hL, hfc, ih]

theorem dropWhile_append_sat {α : Type} (p : α → Bool) (l₁ l₂ : List α)
    (h : ∀ x ∈ l₁, p x = true) :
    (l₁ ++ l₂).dropWhile p = l₂.dropWhile p := by
  induction l₁ with
  | nil => rfl
  | cons a l ih =>
    simp only [List.cons_append, List.dropWhile_cons, h a (by simp), if_true]
    exact ih fun x hx => h x (by simp [hx])

theorem takeWhile_append_sat {α : Type} (p : α → Bool) (l₁ l₂ : List α)
    (h : ∀ x ∈ l₁, p x = true) :
    (l₁ ++ l₂).takeWhile p = l₁ ++ l₂.takeWhile p := by
  induction l₁ with
  | nil => rfl
  | cons a l ih =>
    simp only [List.cons_append, List.takeWhile_cons, h a (by simp), if_true]
    exact congrArg (a :: ·) (ih fun x hx => h x (by simp [hx]))

/-- C1 (counterexample): the claim says the configured default backend always
appears in the attempt order, even when a valid `preferred_backend` is given.
With default backend `gigachat` (configured), fallback list `["openai"]`, and
configured preferred backend `deepseek`, the code builds the attempt order
`["deepseek"]`: the default backend is never appended in the preferred branch. -/
theorem C1_counterexample :
    "deepseek" ≠ "" ∧ "deepseek" ∈ ["gigachat", "deepseek"] ∧
      "gigachat" ∉
        modelOrder { default_model := "gigachat", fallback_models := ["openai"] }
          ["gigachat", "deepseek"] "deepseek" := by
  decide

/-- C1 (amended): when `preferred_backend` is provided and configured, the
attempt order starts with it and continues with exactly the configured fallback
backends other than it, in listed order; otherwise it starts with the default
backend and continues with exactly the configured fallback backends other than
the default, in listed order.  The default backend is therefore in the attempt
order whenever no valid preferred backend is given, but with a configured
preferred backend it appears only if it is the preferred backend itself or a
configured member of the fallback list. -/
theorem C1_attempt_order (cfg : RouterConfig) (providers : List String) (p : String) :
    (p ≠ "" ∧ p ∈ providers →
      (modelOrder cfg providers p).head? = some p ∧
      (modelOrder cfg providers p).tail.Sublist cfg.fallback_models ∧
      (∀ m, m ∈ modelOrder cfg providers p ↔
        m = p ∨ (m ∈ cfg.fallback_models ∧ m ∈ providers ∧ m ≠ p)))
    ∧ (¬(p ≠ "" ∧ p ∈ providers) →
      (modelOrder cfg providers p).head? = some cfg.default_model ∧
      (modelOrder cfg providers p).tail.Sublist cfg.fallback_models ∧
      (∀ m, m ∈ modelOrder cfg providers p ↔
        m = cfg.default_model ∨
          (m ∈ cfg.fallback_models ∧ m ∈ providers ∧ m ≠ cfg.default_model))) := by
  constructor
  · intro hp
    rw [modelOrder, if_pos hp]
    refine ⟨rfl, by simp [List.filter_sublist], ?_⟩
    intro m
    simp only [List.mem_cons, List.mem_filter, decide_eq_true_eq]
  · intro hp
    rw [modelOrder, if_neg hp]
    refine ⟨rfl, by simp [List.filter_sublist], ?_⟩
    intro m
    simp only [List.mem_cons, List.mem_filter, decide_eq_true_eq]

/-- Closed instance of `C1_attempt_order`: with the repository's default
configuration, every backend configured, and preferred backend `deepseek`, the
attempt order starts with `deepseek`. -/
theorem C1_attempt_order_witness :
    ("deepseek" ≠ "" ∧ "deepseek" ∈ ["gigachat", "deepseek", "openai"]) ∧
      (modelOrder defaultRouterConfig ["gigachat", "deepseek", "openai"]
        "deepseek").head? = some "deepseek" :=
  ⟨by decide,
    ((C1_attempt_order defaultRouterConfig ["gigachat", "deepseek", "openai"]
      "deepseek").1 (by decide)).1⟩

/-- C2: the attempt loop returns the result of the first configured backend
whose attempt succeeds, and the backends invoked are exactly the failing
configured prefix followed by that backend — nothing after it is invoked; if
every configured backend in the order fails (in particular if none is
configured), it returns the sentinel dictionary with the fixed apology text,
backend name `fallback` and `success = false`, after invoking every configured
backend in the order. -/
theorem C2_first_success_or_sentinel (providers : List String)
    (outcome : String → AttemptOutcome) (order : List String) :
    (∀ pre m post,
      order.filter (fun x => decide (x ∈ providers)) = pre ++ m :: post →
      (∀ x ∈ pre, attemptSucceeds outcome x = false) →
      attemptSucceeds outcome m = true →
      tryModels providers outcome order = (attemptResult outcome m, pre ++ [m]))
    ∧ ((∀ m ∈ order.filter (fun x => decide (x ∈ providers)),
        attemptSucceeds outcome m = false) →
      tryModels providers outcome order =
        (fallbackResult, order.filter (fun x => decide (x ∈ providers))))
    ∧ fallbackResult.content =
        some "Извините, в данный момент сервис недоступен. Попробуйте позже."
    ∧ fallbackResult.model = "fallback"
    ∧ fallbackResult.success = false := by
  refine ⟨?_, ?_, rfl, rfl, rfl⟩
  · intro pre m post hsplit hpre hm
    rw [tryModels_char, hsplit]
    rw [dropWhile_append_sat _ pre _ (fun x hx => by simp [hpre x hx]),
      takeWhile_append_sat _ pre _ (fun x hx => by simp [hpre x hx])]
    rw [List.dropWhile_cons, List.takeWhile_cons]
    simp [hm]
  · intro hall
    rw [tryModels_char]
    have hd : (order.filter fun x => decide (x ∈ providers)).dropWhile
        (fun x => !attemptSucceeds outcome x) = [] := by
      rw [List.dropWhile_eq_nil_iff]
      intro x hx
      simp [hall x hx]
    rw [hd]

/-- Closed instance of `C2_first_success_or_sentinel`: with all three backends
configured, `gigachat` and `deepseek` failing and `openai` succeeding, the loop
returns `openai`'s result and invokes exactly
`["gigachat", "deepseek", "openai"]`. -/
theorem C2_first_success_or_sentinel_witness :
    tryModels ["gigachat", "deepseek", "openai"] routerWitnessOutcome
        ["gigachat", "deepseek", "openai"] =
      ({ content := some "ok", model := "openai", tokens_used := some 7,
         success := true, error := none },
        ["gigachat", "deepseek", "openai"]) :=
  (C2_first_success_or_sentinel ["gigachat", "deepseek", "openai"]
      routerWitnessOutcome ["gigachat", "deepseek", "openai"]).1
    ["gigachat", "deepseek"] "openai" [] (by decide) (by decide) (by decide)

theorem mem_insertDescBy {α : Type} (key : α → ℚ) (a x : α) (l : List α) :
    x ∈ insertDescBy key a l ↔ x = a ∨ x ∈ l := by
  induction l with
  | nil => simp [insertDescBy]
  | cons b l ih =>
    rw [insertDescBy]
    by_cases h : key b ≤ key a
    · simp [h]
    · simp only [h, if_false, List.mem_cons, ih]
      tauto

theorem mem_sortDescBy {α : Type} (key : α → ℚ) (l : List α) (x : α) :
    x ∈ sortDescBy key l → x ∈ l := by
  induction l with
  | nil => simp [sortDescBy]
  | cons b l ih =>
    intro hx
    rw [sortDescBy, List.foldr_cons, mem_insertDescBy] at hx
    rcases hx with h | h
    · simp [h]
    · exact List.mem_cons_of_mem b (ih h)

/-- C3: the keyword-score half of the claim holds — an empty lower-cased
query word set gives keyword score 0 to every candidate — but the vector half
is a code bug: on a zero-norm vector, `calculate_similarity` divides the
vector by its zero norm, numpy only warns and produces non-finite components,
and the non-finite value (modelled `none`) is returned instead of the claimed
0.  Stated for any model `sqrtQ` of the floating-point square root with
`sqrtQ 0 = 0`. -/
theorem C3_division_guards (sqrtQ : ℚ → ℚ) (h0 : sqrtQ 0 = 0) :
    (∀ query documents top_k, wordSet query = ∅ →
      ∀ r ∈ keyword_search query documents top_k, r.keyword_score = 0)
    ∧ calculate_similarity sqrtQ [0] [1] = none
    ∧ calculate_similarity sqrtQ [0] [1] ≠ some 0 := by
  have hsim : calculate_similarity sqrtQ [0] [1] = none := by
    simp [calculate_similarity, npNorm, efDiv, efDot, efMul, efAdd, h0]
  refine ⟨?_, hsim, by simp [hsim]⟩
  intro query documents top_k hq r hr
  have hr2 := mem_sortDescBy _ _ _ (List.take_subset _ _ hr)
  simp only [keyword_search, List.mem_map] at hr2
  obtain ⟨doc, _, rfl⟩ := hr2
  simp [keywordScore, hq]

/-- Closed instance of `C3_division_guards`: the empty query has an empty word
set, and at the failing input — embedding1 = `[0.0]` (zero norm),
embedding2 = `[1.0]` — the code returns a non-finite similarity, not 0. -/
theorem C3_division_guards_witness :
    wordSet "" = ∅ ∧ calculate_similarity (fun x => x) [0] [1] = none :=
  ⟨by decide, (C3_division_guards (fun x => x) rfl).2.1⟩

/-- C4 (counterexample): a distance of 2 reported by the index is surfaced by
`search_similar` as similarity `1 - 2 = -1`, which is negative — outside
`[0,1]` — and is propagated rather than clamped to 0. -/
theorem C4_counterexample :
    (search_similar [sampleHit]).map SearchResult.similarity = [(-1 : ℚ)] ∧
      ((-1 : ℚ) < 0) := by
  constructor
  · simp only [search_similar, sampleHit, List.map_map, List.map_cons,
      List.map_nil, Function.comp]
    norm_num
  · norm_num

/-- C4 (amended): the keyword score always lies in `[0,1]`, but no clamping is
performed on the other score fields: `search_similar` surfaces exactly
`1 - distance` (negative whenever the index distance exceeds 1), and the
cosine similarity is passed through as computed. -/
theorem C4_score_ranges :
    (∀ query doc, 0 ≤ keywordScore query doc ∧ keywordScore query doc ≤ 1)
    ∧ (∀ hits : List IndexHit, ∀ r ∈ search_similar hits,
        r.similarity = 1 - r.distance) := by
  constructor
  · intro query doc
    rw [keywordScore]
    by_cases hq : wordSet query ≠ ∅
    · rw [if_pos hq]
      have hpos : 0 < ((wordSet query).card : ℚ) := by
        have := Finset.card_pos.mpr (Finset.nonempty_iff_ne_empty.mpr hq)
        exact_mod_cast this
      have hle : ((wordSet query ∩ wordSet doc.text).card : ℚ) ≤
          ((wordSet query).card : ℚ) := by
        exact_mod_cast Finset.card_le_card (Finset.inter_subset_left)
      constructor
      · positivity
      · rw [div_le_one hpos]
        exact hle
    · rw [if_neg hq]
      norm_num
  · intro hits r hr
    simp only [search_similar, List.mem_map] at hr
    obtain ⟨h, _, rfl⟩ := hr
    rfl

/-- Closed instance of `C4_score_ranges`: the keyword score of a concrete
query/document pair is within bounds, and a concrete surfaced search result
carries exactly `1 - distance`. -/
theorem C4_score_ranges_witness :
    (0 ≤ keywordScore "ssl help" { text := "SSL config", metadata := ⟨none⟩ } ∧
      keywordScore "ssl help" { text := "SSL config", metadata := ⟨none⟩ } ≤ 1) ∧
    sampleHitResult.similarity = 1 - sampleHitResult.distance :=
  ⟨C4_score_ranges.1 "ssl help" { text := "SSL config", metadata := ⟨none⟩ },
    C4_score_ranges.2 [sampleHit] sampleHitResult
      (by simp [search_similar, sampleHit, sampleHitResult])⟩

/-- C6: the combined score is exactly
`w * vector_score + (1 - w) * keyword_score` for finite scores, it lies in
`[0,1]` whenever `w`, `v` and `k` do, and every entry written by the combined
score loop carries exactly that value of its own two scores. -/
theorem C6_combined_formula (w v k : ℚ) :
    combineScore w (some v) k = some (w * v + (1 - w) * k)
    ∧ (0 ≤ w → w ≤ 1 → 0 ≤ v → v ≤ 1 → 0 ≤ k → k ≤ 1 →
        ∀ c, combineScore w (some v) k = some c → 0 ≤ c ∧ c ≤ 1)
    ∧ (∀ m : ScoreMap, ∀ p ∈ scoreEntries w m,
        p.2.combined_score = combineScore w p.2.vector_score p.2.keyword_score) := by
  refine ⟨rfl, ?_, ?_⟩
  · intro hw0 hw1 hv0 hv1 hk0 hk1 c hc
    have hceq : c = w * v + (1 - w) * k := by
      have : some (w * v + (1 - w) * k) = some c := by rw [← hc]; rfl
      exact (Option.some.injEq _ _ ▸ this).symm
    subst hceq
    constructor
    · have h1 : 0 ≤ w * v := mul_nonneg hw0 hv0
      have h2 : 0 ≤ (1 - w) * k := mul_nonneg (by linarith) hk0
      linarith
    · have h1 : w * v ≤ w := mul_le_of_le_one_right hw0 hv1
      have h2 : (1 - w) * k ≤ 1 - w := mul_le_of_le_one_right (by linarith) hk1
      linarith
  · intro m p hp
    simp only [scoreEntries, List.mem_map] at hp
    obtain ⟨q, _, rfl⟩ := hp
    rfl

/-- Closed instance of `C6_combined_formula`: with the default weight `0.7`,
vector score `0.9` and keyword score `0.2`, the combined score is `0.69` and
lies in `[0,1]`. -/
theorem C6_combined_formula_witness :
    combineScore (7/10) (some (9/10)) (2/10) = some (69/100) ∧
      0 ≤ (69/100 : ℚ) ∧ (69/100 : ℚ) ≤ 1 := by
  have hc : combineScore (7/10) (some (9/10)) (2/10) = some (69/100) := by
    norm_num [combineScore, efMul, efAdd]
  exact ⟨hc, (C6_combined_formula (7/10) (9/10) (2/10)).2.1 (by norm_num)
    (by norm_num) (by norm_num) (by norm_num) (by norm_num) (by norm_num)
    (69/100) hc⟩

/- Association-list lemmas for the `combined_scores` dictionary. -/

theorem alookup_eq_none_iff (k : DocKey) (m : ScoreMap) :
    alookup k m = none ↔ ∀ p ∈ m, p.1 ≠ k := by
  induction m with
  | nil => simp [alookup]
  | cons q m ih =>
    by_cases h : q.1 = k
    · simp [alookup, h]
    · simp [alookup, h, ih]

theorem alookup_append_of_some (k : DocKey) (m1 m2 : ScoreMap) (e : MergedEntry)
    (h : alookup k m1 = some e) : alookup k (m1 ++ m2) = some e := by
  induction m1 with
  | nil => simp [alookup] at h
  | cons q m1 ih =>
    by_cases hq : q.1 = k
    · simp_all [alookup, hq]
    · simp_all [alookup, hq]

theorem alookup_append_of_none (k : DocKey) (m1 m2 : ScoreMap)
    (h : alookup k m1 = none) : alookup k (m1 ++ m2) = alookup k m2 := by
  induction m1 with
  | nil => simp
  | cons q m1 ih =>
    by_cases hq : q.1 = k
    · simp_all [alookup, hq]
    · simp_all [alookup, hq]

theorem alookup_singleton_self (k : DocKey) (e : MergedEntry) :
    alookup k [(k, e)] = some e := by
  simp [alookup]

theorem alookup_singleton_ne (k k2 : DocKey) (e : MergedEntry) (h : k2 ≠ k) :
    alookup k [(k2, e)] = none := by
  simp [alookup, h]

theorem alookup_asetVec_self (k : DocKey) (v : Option ℚ) (m : ScoreMap) :
    alookup k (asetVec k v m) =
      (alookup k m).map (fun e => { e with vector_score := v }) := by
  induction m with
  | nil => simp [alookup, asetVec]
  | cons q m ih =>
    by_cases hq : q.1 = k
    · simp [alookup, asetVec, hq]
    · simp only [asetVec, List.map_cons] at ih ⊢
      simp [alookup, hq, ih]

theorem alookup_asetVec_ne (k k2 : DocKey) (v : Option ℚ) (m : ScoreMap)
    (h : k ≠ k2) : alookup k (asetVec k2 v m) = alookup k m := by
  induction m with
  | nil => simp [alookup, asetVec]
  | cons q m ih =>
    by_cases hq : q.1 = k2
    · simp only [asetVec, List.map_cons, hq, if_true] at ih ⊢
      rw [alookup, alookup]
      simp only [hq]
      rw [if_neg (fun hh => h hh.symm), if_neg (fun hh => h hh.symm)]
      exact ih
    · simp only [asetVec, List.map_cons, hq, if_false] at ih ⊢
      rw [alookup, alookup]
      by_cases hqk : q.1 = k
      · simp [hqk]
      · simp only [hqk, if_false]
        exact ih

theorem alookup_asetKw_self (k : DocKey) (v : ℚ) (m : ScoreMap) :
    alookup k (asetKw k v m) =
      (alookup k m).map (fun e => { e with keyword_score := v }) := by
  induction m with
  | nil => simp [alookup, asetKw]
  | cons q m ih =>
    by_cases hq : q.1 = k
    · simp [alookup, asetKw, hq]
    · simp only [asetKw, List.map_cons] at ih ⊢
      simp [alookup, hq, ih]

theorem alookup_asetKw_ne (k k2 : DocKey) (v : ℚ) (m : ScoreMap)
    (h : k ≠ k2) : alookup k (asetKw k2 v m) = alookup k m := by
  induction m with
  | nil => simp [alookup, asetKw]
  | cons q m ih =>
    by_cases hq : q.1 = k2
    · simp only [asetKw, List.map_cons, hq, if_true] at ih ⊢
      rw [alookup, alookup]
      simp only [hq]
      rw [if_neg (fun hh => h hh.symm), if_neg (fun hh => h hh.symm)]
      exact ih
    · simp only [asetKw, List.map_cons, hq, if_false] at ih ⊢
      rw [alookup, alookup]
      by_cases hqk : q.1 = k
      · simp [hqk]
      · simp only [hqk, if_false]
        exact ih

theorem keys_asetVec (k : DocKey) (v : Option ℚ) (m : ScoreMap) :
    (asetVec k v m).map Prod.fst = m.map Prod.fst := by
  induction m with
  | nil => rfl
  | cons q m ih =>
    simp only [asetVec, List.map_cons] at ih ⊢
    by_cases hq : q.1 = k <;> simp [hq, ih]

theorem keys_asetKw (k : DocKey) (v : ℚ) (m : ScoreMap) :
    (asetKw k v m).map Prod.fst = m.map Prod.fst := by
  induction m with
  | nil => rfl
  | cons q m ih =>
    simp only [asetKw, List.map_cons] at ih ⊢
    by_cases hq : q.1 = k <;> simp [hq, ih]

theorem alookup_eq_some_mem (k : DocKey) (m : ScoreMap) (e : MergedEntry)
    (h : alookup k m = some e) : (k, e) ∈ m := by
  induction m with
  | nil => simp [alookup] at h
  | cons q m ih =>
    by_cases hq : q.1 = k
    · rw [alookup, if_pos hq] at h
      obtain ⟨q1, q2⟩ := q
      simp only [Option.some.injEq] at h
      subst h
      simp only at hq
      subst hq
      exact List.mem_cons_self _ _
    · rw [alookup, if_neg hq] at h
      exact List.mem_cons_of_mem _ (ih h)

theorem countP_key_eq_one (k : DocKey) (m : ScoreMap)
    (hn : (m.map Prod.fst).Nodup) (hs : (alookup k m).isSome) :
    m.countP (fun p => decide (p.1 = k)) = 1 := by
  induction m with
  | nil => simp [alookup] at hs
  | cons q m ih =>
    simp only [List.map_cons, List.nodup_cons] at hn
    by_cases hq : q.1 = k
    · rw [List.countP_cons]
      simp only [hq, decide_eq_true_eq, if_true]
      have hzero : m.countP (fun p => decide (p.1 = k)) = 0 := by
        rw [List.countP_eq_zero]
        intro p hp
        simp only [decide_eq_true_eq]
        intro hpk
        exact hn.1 (hq ▸ hpk ▸ List.mem_map_of_mem Prod.fst hp)
      omega
    · rw [alookup, if_neg hq, ] at hs
      rw [List.countP_cons]
      simp only [decide_eq_true_eq, hq, if_false]
      exact ih hn.2 hs

theorem addVectorResults_cons_found (documents : List Doc) (m : ScoreMap)
    (r : VecRes) (vres : List VecRes)
    (h : (alookup (vecDocKey (documents.getD r.index default) r.index) m).isSome) :
    addVectorResults documents m (r :: vres) =
      addVectorResults documents
        (asetVec (vecDocKey (documents.getD r.index default) r.index)
          r.similarity m) vres := by
  simp only [addVectorResults, List.foldl_cons]
  rw [if_pos h]

theorem addVectorResults_cons_new (documents : List Doc) (m : ScoreMap)
    (r : VecRes) (vres : List VecRes)
    (h : ¬ (alookup (vecDocKey (documents.getD r.index default) r.index) m).isSome) :
    addVectorResults documents m (r :: vres) =
      addVectorResults documents
        (m ++ [(vecDocKey (documents.getD r.index default) r.index,
          { document := documents.getD r.index default,
            vector_score := r.similarity, keyword_score := 0,
            combined_score := some 0 })]) vres := by
  simp only [addVectorResults, List.foldl_cons]
  rw [if_neg h]

theorem addKeywordResults_cons_found (pyHash : Doc → ℤ) (m : ScoreMap)
    (r : KwRes) (kres : List KwRes)
    (h : (alookup (kwDocKey pyHash r.document) m).isSome) :
    addKeywordResults pyHash m (r :: kres) =
      addKeywordResults pyHash
        (asetKw (kwDocKey pyHash r.document) r.keyword_score m) kres := by
  simp only [addKeywordResults, List.foldl_cons]
  rw [if_pos h]

theorem addKeywordResults_cons_new (pyHash : Doc → ℤ) (m : ScoreMap)
    (r : KwRes) (kres : List KwRes)
    (h : ¬ (alookup (kwDocKey pyHash r.document) m).isSome) :
    addKeywordResults pyHash m (r :: kres) =
      addKeywordResults pyHash
        (m ++ [(kwDocKey pyHash r.document,
          { document := r.document, vector_score := some 0,
            keyword_score := r.keyword_score, combined_score := some 0 })]) kres := by
  simp only [addKeywordResults, List.foldl_cons]
  rw [if_neg h]

theorem notMem_keys_of_alookup_none (k : DocKey) (m : ScoreMap)
    (h : alookup k m = none) : k ∉ m.map Prod.fst := by
  rw [alookup_eq_none_iff] at h
  intro hk
  obtain ⟨p, hp, hpk⟩ := List.mem_map.mp hk
  exact h p hp hpk

theorem keys_append_single_nodup (k : DocKey) (e : MergedEntry) (m : ScoreMap)
    (hn : (m.map Prod.fst).Nodup) (h : alookup k m = none) :
    ((m ++ [(k, e)]).map Prod.fst).Nodup := by
  rw [List.map_append]
  rw [List.nodup_append]
  refine ⟨hn, by simp, ?_⟩
  intro x hx
  simp only [List.map_cons, List.map_nil, List.mem_singleton]
  intro hxk
  subst hxk
  exact notMem_keys_of_alookup_none _ _ h hx

theorem keysNodup_addVectorResults (documents : List Doc) (vres : List VecRes) :
    ∀ m : ScoreMap, (m.map Prod.fst).Nodup →
      ((addVectorResults documents m vres).map Prod.fst).Nodup := by
  induction vres with
  | nil => intro m h; exact h
  | cons r vres ih =>
    intro m h
    by_cases hk : (alookup (vecDocKey (documents.getD r.index default) r.index) m).isSome
    · rw [addVectorResults_cons_found documents m r vres hk]
      exact ih _ (by rw [keys_asetVec]; exact h)
    · rw [addVectorResults_cons_new documents m r vres hk]
      exact ih _ (keys_append_single_nodup _ _ _ h
        (Option.not_isSome_iff_eq_none.mp hk))

theorem keysNodup_addKeywordResults (pyHash : Doc → ℤ) (kres : List KwRes) :
    ∀ m : ScoreMap, (m.map Prod.fst).Nodup →
      ((addKeywordResults pyHash m kres).map Prod.fst).Nodup := by
  induction kres with
  | nil => intro m h; exact h
  | cons r kres ih =>
    intro m h
    by_cases hk : (alookup (kwDocKey pyHash r.document) m).isSome
    · rw [addKeywordResults_cons_found pyHash m r kres hk]
      exact ih _ (by rw [keys_asetKw]; exact h)
    · rw [addKeywordResults_cons_new pyHash m r kres hk]
      exact ih _ (keys_append_single_nodup _ _ _ h
        (Option.not_isSome_iff_eq_none.mp hk))

theorem alookup_isSome_addVectorResults (documents : List Doc)
    (vres : List VecRes) (k : DocKey) :
    ∀ m : ScoreMap, (alookup k m).isSome →
      (alookup k (addVectorResults documents m vres)).isSome := by
  induction vres with
  | nil => intro m h; exact h
  | cons r vres ih =>
    intro m h
    by_cases hk : (alookup (vecDocKey (documents.getD r.index default) r.index) m).isSome
    · rw [addVectorResults_cons_found documents m r vres hk]
      apply ih
      by_cases hkk : k = vecDocKey (documents.getD r.index default) r.index
      · subst hkk
        rw [alookup_asetVec_self]
        simpa using h
      · rw [alookup_asetVec_ne _ _ _ _ hkk]
        exact h
    · rw [addVectorResults_cons_new documents m r vres hk]
      apply ih
      obtain ⟨e, he⟩ := Option.isSome_iff_exists.mp h
      rw [alookup_append_of_some _ _ _ _ he]
      rfl

theorem alookup_isSome_addKeywordResults (pyHash : Doc → ℤ)
    (kres : List KwRes) (k : DocKey) :
    ∀ m : ScoreMap, (alookup k m).isSome →
      (alookup k (addKeywordResults pyHash m kres)).isSome := by
  induction kres with
  | nil => intro m h; exact h
  | cons r kres ih =>
    intro m h
    by_cases hk : (alookup (kwDocKey pyHash r.document) m).isSome
    · rw [addKeywordResults_cons_found pyHash m r kres hk]
      apply ih
      by_cases hkk : k = kwDocKey pyHash r.document
      · subst hkk
        rw [alookup_asetKw_self]
        simpa using h
      · rw [alookup_asetKw_ne _ _ _ _ hkk]
        exact h
    · rw [addKeywordResults_cons_new pyHash m r kres hk]
      apply ih
      obtain ⟨e, he⟩ := Option.isSome_iff_exists.mp h
      rw [alookup_append_of_some _ _ _ _ he]
      rfl

theorem alookup_isSome_vres_mem (documents : List Doc) (vres : List VecRes)
    (r : VecRes) (hr : r ∈ vres) :
    ∀ m : ScoreMap,
      (alookup (vecDocKey (documents.getD r.index default) r.index)
        (addVectorResults documents m vres)).isSome := by
  induction vres with
  | nil => simp at hr
  | cons r0 vres ih =>
    intro m
    rcases List.mem_cons.mp hr with hr0 | hrtl
    · subst hr0
      by_cases hk : (alookup (vecDocKey (documents.getD r.index default) r.index) m).isSome
      · rw [addVectorResults_cons_found documents m r vres hk]
        apply alookup_isSome_addVectorResults
        rw [alookup_asetVec_self]
        simpa using hk
      · rw [addVectorResults_cons_new documents m r vres hk]
        apply alookup_isSome_addVectorResults
        rw [alookup_append_of_none _ _ _ (Option.not_isSome_iff_eq_none.mp hk),
          alookup_singleton_self]
        rfl
    · by_cases hk : (alookup (vecDocKey (documents.getD r0.index default) r0.index) m).isSome
      · rw [addVectorResults_cons_found documents m r0 vres hk]
        exact ih hrtl _
      · rw [addVectorResults_cons_new documents m r0 vres hk]
        exact ih hrtl _

theorem alookup_isSome_kres_mem (pyHash : Doc → ℤ) (kres : List KwRes)
    (r : KwRes) (hr : r ∈ kres) :
    ∀ m : ScoreMap,
      (alookup (kwDocKey pyHash r.document)
        (addKeywordResults pyHash m kres)).isSome := by
  induction kres with
  | nil => simp at hr
  | cons r0 kres ih =>
    intro m
    rcases List.mem_cons.mp hr with hr0 | hrtl
    · subst hr0
      by_cases hk : (alookup (kwDocKey pyHash r.document) m).isSome
      · rw [addKeywordResults_cons_found pyHash m r kres hk]
        apply alookup_isSome_addKeywordResults
        rw [alookup_asetKw_self]
        simpa using hk
      · rw [addKeywordResults_cons_new pyHash m r kres hk]
        apply alookup_isSome_addKeywordResults
        rw [alookup_append_of_none _ _ _ (Option.not_isSome_iff_eq_none.mp hk),
          alookup_singleton_self]
        rfl
    · by_cases hk : (alookup (kwDocKey pyHash r0.document) m).isSome
      · rw [addKeywordResults_cons_found pyHash m r0 kres hk]
        exact ih hrtl _
      · rw [addKeywordResults_cons_new pyHash m r0 kres hk]
        exact ih hrtl _

theorem alookup_append_single_ne (k k2 : DocKey) (e : MergedEntry)
    (m : ScoreMap) (h : k2 ≠ k) :
    alookup k (m ++ [(k2, e)]) = alookup k m := by
  cases he : alookup k m with
  | some e2 => exact alookup_append_of_some _ _ _ _ he
  | none =>
    rw [alookup_append_of_none _ _ _ he, alookup_singleton_ne _ _ _ h]

theorem alookup_addKeywordResults_untouched (pyHash : Doc → ℤ)
    (kres : List KwRes) (k : DocKey)
    (h : ∀ r ∈ kres, kwDocKey pyHash r.document ≠ k) :
    ∀ m : ScoreMap, alookup k (addKeywordResults pyHash m kres) = alookup k m := by
  induction kres with
  | nil => intro m; rfl
  | cons r kres ih =>
    intro m
    have hr : kwDocKey pyHash r.document ≠ k := h r (by simp)
    have htl : ∀ r2 ∈ kres, kwDocKey pyHash r2.document ≠ k :=
      fun r2 hr2 => h r2 (by simp [hr2])
    by_cases hk : (alookup (kwDocKey pyHash r.document) m).isSome
    · rw [addKeywordResults_cons_found pyHash m r kres hk, ih htl,
        alookup_asetKw_ne _ _ _ _ (fun hh => hr hh.symm)]
    · rw [addKeywordResults_cons_new pyHash m r kres hk, ih htl,
        alookup_append_single_ne _ _ _ _ hr]

theorem alookup_addVectorResults_untouched (documents : List Doc)
    (vres : List VecRes) (k : DocKey)
    (h : ∀ r ∈ vres, vecDocKey (documents.getD r.index default) r.index ≠ k) :
    ∀ m : ScoreMap, alookup k (addVectorResults documents m vres) = alookup k m := by
  induction vres with
  | nil => intro m; rfl
  | cons r vres ih =>
    intro m
    have hr : vecDocKey (documents.getD r.index default) r.index ≠ k := h r (by simp)
    have htl : ∀ r2 ∈ vres, vecDocKey (documents.getD r2.index default) r2.index ≠ k :=
      fun r2 hr2 => h r2 (by simp [hr2])
    by_cases hk : (alookup (vecDocKey (documents.getD r.index default) r.index) m).isSome
    · rw [addVectorResults_cons_found documents m r vres hk, ih htl,
        alookup_asetVec_ne _ _ _ _ (fun hh => hr hh.symm)]
    · rw [addVectorResults_cons_new documents m r vres hk, ih htl,
        alookup_append_single_ne _ _ _ _ hr]

theorem kwZero_addVectorResults (documents : List Doc) (vres : List VecRes) :
    ∀ m : ScoreMap, (∀ p ∈ m, p.2.keyword_score = 0) →
      ∀ p ∈ addVectorResults documents m vres, p.2.keyword_score = 0 := by
  induction vres with
  | nil => intro m h; exact h
  | cons r vres ih =>
    intro m h
    by_cases hk : (alookup (vecDocKey (documents.getD r.index default) r.index) m).isSome
    · rw [addVectorResults_cons_found documents m r vres hk]
      apply ih
      intro p hp
      simp only [asetVec, List.mem_map] at hp
      obtain ⟨q, hq, rfl⟩ := hp
      by_cases hqk : q.1 = vecDocKey (documents.getD r.index default) r.index
      · simp only [hqk, if_true]
        exact h q hq
      · simp only [hqk, if_false]
        exact h q hq
    · rw [addVectorResults_cons_new documents m r vres hk]
      apply ih
      intro p hp
      rcases List.mem_append.mp hp with hp1 | hp2
      · exact h p hp1
      · simp only [List.mem_singleton] at hp2
        subst hp2
        rfl

theorem vecInv_addKeywordResults (pyHash : Doc → ℤ) (kres : List KwRes)
    (k : DocKey) :
    ∀ m : ScoreMap,
      (alookup k m = none ∨
        ∃ e, alookup k m = some e ∧ e.vector_score = some 0) →
      (alookup k (addKeywordResults pyHash m kres) = none ∨
        ∃ e, alookup k (addKeywordResults pyHash m kres) = some e ∧
          e.vector_score = some 0) := by
  induction kres with
  | nil => intro m h; exact h
  | cons r kres ih =>
    intro m h
    by_cases hk : (alookup (kwDocKey pyHash r.document) m).isSome
    · rw [addKeywordResults_cons_found pyHash m r kres hk]
      apply ih
      by_cases hkk : k = kwDocKey pyHash r.document
      · subst hkk
        rw [alookup_asetKw_self]
        rcases h with h | ⟨e, he, hv⟩
        · left; rw [h]; rfl
        · right
          refine ⟨{ e with keyword_score := r.keyword_score }, ?_, hv⟩
          rw [he]
          rfl
      · rw [alookup_asetKw_ne _ _ _ _ hkk]
        exact h
    · rw [addKeywordResults_cons_new pyHash m r kres hk]
      apply ih
      by_cases hkk : kwDocKey pyHash r.document = k
      · subst hkk
        rcases h with h | ⟨e, he, _⟩
        · right
          rw [alookup_append_of_none _ _ _ h, alookup_singleton_self]
          exact ⟨_, rfl, rfl⟩
        · rw [he] at hk
          simp at hk
      · rw [alookup_append_single_ne _ _ _ _ hkk]
        exact h

/-- C5 (counterexample): with hash value 7 for the serialized document (Python
string hashes are seeded 64-bit values, essentially never equal to a small
list index), a single candidate without a metadata id that appears in both
scored lists is keyed as positional index `0` by the vector branch but as
`hash(str(doc))` by the keyword branch, so the merge produces two entries for
that one candidate instead of exactly one. -/
theorem C5_counterexample :
    (combineScoresMap (fun _ => 7) [{ text := "ssl", metadata := ⟨none⟩ }]
        [{ index := 0, similarity := some (1/2) }]
        [{ document := { text := "ssl", metadata := ⟨none⟩ },
           keyword_score := 1 }]).map (fun p => p.2.document) =
      [{ text := "ssl", metadata := ⟨none⟩ }, { text := "ssl", metadata := ⟨none⟩ }] := by
  simp [combineScoresMap, addVectorResults, addKeywordResults, alookup,
    vecDocKey, kwDocKey]

/-- C5 (amended): merging is by dictionary key, and the two branches agree on
the key exactly when the candidate carries a metadata id.  The merged
dictionary never holds two entries for one key; every element of either scored
list is present under its branch's key; a key that is present has exactly one
entry; a key no keyword result maps to keeps `keyword_score = 0` as set by the
vector branch, and a key no vector result maps to holds `vector_score = 0`.
For candidates with a metadata id both branches use that id as the key, giving
exactly one merged entry with `0` substituted for a missing score; a candidate
without an id is keyed inconsistently (position vs. string hash) and can yield
two entries, as the counterexample shows. -/
theorem C5_merge_by_key (pyHash : Doc → ℤ) (documents : List Doc)
    (vres : List VecRes) (kres : List KwRes) (k : DocKey) :
    (((combineScoresMap pyHash documents vres kres).map Prod.fst).Nodup)
    ∧ (∀ (d : Doc) (s : String) (i : Nat), d.metadata.id = some s →
        vecDocKey d i = DocKey.strKey s ∧ kwDocKey pyHash d = DocKey.strKey s)
    ∧ (∀ r ∈ vres,
        (alookup (vecDocKey (documents.getD r.index default) r.index)
          (combineScoresMap pyHash documents vres kres)).isSome)
    ∧ (∀ r ∈ kres,
        (alookup (kwDocKey pyHash r.document)
          (combineScoresMap pyHash documents vres kres)).isSome)
    ∧ ((alookup k (combineScoresMap pyHash documents vres kres)).isSome →
        (combineScoresMap pyHash documents vres kres).countP
          (fun p => decide (p.1 = k)) = 1)
    ∧ ((∀ r ∈ kres, kwDocKey pyHash r.document ≠ k) →
        ∀ e, alookup k (combineScoresMap pyHash documents vres kres) = some e →
          e.keyword_score = 0)
    ∧ ((∀ r ∈ vres, vecDocKey (documents.getD r.index default) r.index ≠ k) →
        ∀ e, alookup k (combineScoresMap pyHash documents vres kres) = some e →
          e.vector_score = some 0) := by
  have hnodup : ((combineScoresMap pyHash documents vres kres).map Prod.fst).Nodup :=
    keysNodup_addKeywordResults pyHash kres _
      (keysNodup_addVectorResults documents vres [] (by simp))
  refine ⟨hnodup, ?_, ?_, ?_, ?_, ?_, ?_⟩
  · intro d s i hid
    constructor
    · rw [vecDocKey, hid]
    · rw [kwDocKey, hid]
  · intro r hr
    exact alookup_isSome_addKeywordResults pyHash kres _ _
      (alookup_isSome_vres_mem documents vres r hr [])
  · intro r hr
    exact alookup_isSome_kres_mem pyHash kres r hr _
  · intro hs
    exact countP_key_eq_one k _ hnodup hs
  · intro hk e he
    rw [combineScoresMap, alookup_addKeywordResults_untouched pyHash kres k hk] at he
    exact kwZero_addVectorResults documents vres [] (by simp) (k, e)
      (alookup_eq_some_mem _ _ _ he)
  · intro hv e he
    have hbase : alookup k (addVectorResults documents [] vres) = none := by
      rw [alookup_addVectorResults_untouched documents vres k hv]
      rfl
    rcases vecInv_addKeywordResults pyHash kres k _ (Or.inl hbase) with h | ⟨e2, he2, hv2⟩
    · rw [combineScoresMap] at he
      rw [he] at h
      exact absurd h (by simp)
    · rw [combineScoresMap] at he
      rw [he] at he2
      simp only [Option.some.injEq] at he2
      rw [← he2] at hv2
      exact hv2

/-- Closed instance of `C5_merge_by_key`: a candidate carrying metadata id
`"a"` that appears only in the vector list gets exactly one merged entry, with
`keyword_score = 0` substituted for the missing keyword score. -/
theorem C5_merge_by_key_witness :
    (combineScoresMap (fun _ => 7)
        [{ text := "ssl", metadata := ⟨some "a"⟩ }]
        [{ index := 0, similarity := some (1/2) }] []).countP
      (fun p => decide (p.1 = DocKey.strKey "a")) = 1 ∧
    ({ document := { text := "ssl", metadata := ⟨some "a"⟩ },
       vector_score := some (1/2), keyword_score := 0,
       combined_score := some 0 } : MergedEntry).keyword_score = 0 := by
  have heval : alookup (DocKey.strKey "a")
      (combineScoresMap (fun _ => 7)
        [{ text := "ssl", metadata := ⟨some "a"⟩ }]
        [{ index := 0, similarity := some (1/2) }] []) =
      some { document := { text := "ssl", metadata := ⟨some "a"⟩ },
             vector_score := some (1/2), keyword_score := 0,
             combined_score := some 0 } := by
    simp [combineScoresMap, addVectorResults, addKeywordResults, alookup,
      vecDocKey]
  refine ⟨?_, ?_⟩
  · exact (C5_merge_by_key (fun _ => 7) _ _ _ (DocKey.strKey "a")).2.2.2.2.1
      (by rw [heval]; rfl)
  · exact (C5_merge_by_key (fun _ => 7) _ _ _ (DocKey.strKey "a")).2.2.2.2.2.1
      (by simp) _ heval

/-- C7: the assembled message list is exactly: the fixed system message; the
context system message if and only if the retrieval-result list is non-empty;
the windowed history turns unchanged and in order; and the current query as
one final user message, always last. -/
theorem C7_message_assembly (query : String)
    (context_results : List SearchResult) (session_context : List Message) :
    (context_results = [] →
      _build_messages query context_results session_context =
        { role := "system", content := system_prompt } ::
          (session_context ++ [{ role := "user", content := query }]))
    ∧ (context_results ≠ [] →
      _build_messages query context_results session_context =
        { role := "system", content := system_prompt } ::
          contextMessage context_results ::
            (session_context ++ [{ role := "user", content := query }]))
    ∧ (contextMessage context_results).role = "system"
    ∧ (_build_messages query context_results session_context).getLast? =
        some { role := "user", content := query }
    ∧ (_build_messages query context_results session_context).head? =
        some { role := "system", content := system_prompt } := by
  refine ⟨?_, ?_, rfl, ?_, ?_⟩
  · intro h
    by_cases hs : session_context = [] <;> simp [_build_messages, h, hs]
  · intro h
    by_cases hs : session_context = [] <;> simp [_build_messages, h, hs]
  · simp [_build_messages, List.getLast?_concat]
  · by_cases h1 : context_results = [] <;> by_cases h2 : session_context = [] <;>
      simp [_build_messages, h1, h2]

/-- Closed instance of `C7_message_assembly`: with no retrieval results and no
history, the assembled list is exactly the system message followed by the user
message. -/
theorem C7_message_assembly_witness :
    _build_messages "q" [] [] =
      [{ role := "system", content := system_prompt },
       { role := "user", content := "q" }] := by
  have h := (C7_message_assembly "q" [] []).1 rfl
  simpa using h

theorem prepare_foldl_eq (l : List Turn) :
    ∀ acc : List Message,
      l.foldl
        (fun acc msg =>
          if msg.role = "user" ∨ msg.role = "assistant" then
            acc ++ [{ role := msg.role, content := msg.content }]
          else acc)
        acc =
      acc ++
        (l.filter (fun t => decide (t.role = "user" ∨ t.role = "assistant"))).map
          (fun t => { role := t.role, content := t.content }) := by
  induction l with
  | nil => intro acc; simp
  | cons t l ih =>
    intro acc
    rw [List.foldl_cons, List.filter_cons]
    by_cases ht : t.role = "user" ∨ t.role = "assistant"
    · simp only [ht, if_true, decide_true_eq_true]
      rw [ih]
      simp [ht]
    · simp only [ht, if_false]
      rw [ih]
      simp [ht]

/-- C8: the session-context window is exactly the user/assistant turns of the
last `limit` turns of the history, mapped to role/content messages in
chronological order (so it has at most `limit` entries and only user/assistant
roles); and updating the history appends the user turn then the assistant turn
and keeps only the last `2 * limit` stored turns.  The instance limit
`max_context_length` is 10. -/
theorem C8_history_window (limit : Nat) (history : List Turn)
    (u a : String) (t1 t2 : ℚ) :
    max_context_length = 10
    ∧ _prepare_session_context limit history =
        ((history.drop (history.length - limit)).filter
          (fun t => decide (t.role = "user" ∨ t.role = "assistant"))).map
          (fun t => { role := t.role, content := t.content })
    ∧ (_prepare_session_context limit history).length ≤ limit
    ∧ (∀ m ∈ _prepare_session_context limit history,
        m.role = "user" ∨ m.role = "assistant")
    ∧ update_conversation_history limit history u a t1 t2 =
        (history ++
          [({ role := "user", content := u, timestamp := t1 } : Turn),
           { role := "assistant", content := a, timestamp := t2 }]).drop
          ((history.length + 2) - limit * 2)
    ∧ (update_conversation_history limit history u a t1 t2).length ≤ limit * 2 := by
  have hprep : _prepare_session_context limit history =
      ((history.drop (history.length - limit)).filter
        (fun t => decide (t.role = "user" ∨ t.role = "assistant"))).map
        (fun t => { role := t.role, content := t.content }) := by
    rw [_prepare_session_context]
    by_cases h : history = []
    · subst h
      simp
    · rw [if_neg h]
      exact prepare_foldl_eq _ []
  have hupd : update_conversation_history limit history u a t1 t2 =
      (history ++
        [({ role := "user", content := u, timestamp := t1 } : Turn),
         { role := "assistant", content := a, timestamp := t2 }]).drop
        ((history.length + 2) - limit * 2) := by
    simp only [update_conversation_history, List.append_assoc,
      List.singleton_append, List.cons_append, List.nil_append]
    have hlen : (history ++
        [({ role := "user", content := u, timestamp := t1 } : Turn),
         { role := "assistant", content := a, timestamp := t2 }]).length =
        history.length + 2 := by
      simp
    by_cases h : (history ++
        [({ role := "user", content := u, timestamp := t1 } : Turn),
         { role := "assistant", content := a, timestamp := t2 }]).length >
        limit * 2
    · rw [if_pos h, hlen]
    · rw [if_neg h]
      rw [hlen] at h
      have : (history.length + 2) - limit * 2 = 0 := by omega
      rw [this, List.drop_zero]
  refine ⟨rfl, hprep, ?_, ?_, hupd, ?_⟩
  · rw [hprep, List.length_map]
    calc ((history.drop (history.length - limit)).filter _).length
        ≤ (history.drop (history.length - limit)).length :=
          List.length_filter_le _ _
      _ ≤ limit := by rw [List.length_drop]; omega
  · intro m hm
    rw [hprep] at hm
    simp only [List.mem_map, List.mem_filter, decide_eq_true_eq] at hm
    obtain ⟨t, ⟨_, ht⟩, rfl⟩ := hm
    exact ht
  · rw [hupd, List.length_drop]
    simp only [List.length_append, List.length_cons, List.length_nil]
    omega

/-- Closed instance of `C8_history_window`: a stray system turn inside the
last 10 turns is dropped, the surviving user turn keeps its role, and an
update of an empty history stays within the `2 * limit` cap. -/
theorem C8_history_window_witness :
    (({ role := "user", content := "hi" } : Message).role = "user" ∨
      ({ role := "user", content := "hi" } : Message).role = "assistant") ∧
    (update_conversation_history 10 [] "q" "a" 0 0).length ≤ 10 * 2 :=
  ⟨(C8_history_window 10
      [{ role := "user", content := "hi", timestamp := 0 },
       { role := "system", content := "x", timestamp := 0 }] "q" "a" 0 0).2.2.2.1
      { role := "user", content := "hi" } (by decide),
    (C8_history_window 10 [] "q" "a" 0 0).2.2.2.2.2⟩

/-- C9: the orchestrator always hands back a result record: a retrieval
exception is absorbed into an empty context before generation, a generation
exception is converted at the `process_query` boundary into the generic error
record with `success = false` and the fixed user-facing message, and a
successful result is only reported when the generation collaborator actually
returned a successful response. -/
theorem C9_orchestrator_boundary (search : Except String (List SearchResult))
    (gen : List Message → Except String GenResult)
    (query : String) (session_context : List Message) (rt : ℚ) :
    (∀ e, search = .error e → _retrieve_context search = [])
    ∧ (∀ e,
        gen (_build_messages query (_retrieve_context search) session_context) =
          .error e →
        process_query search gen query session_context rt = errorRAGResult e rt
          ∧ (errorRAGResult e rt).success = false
          ∧ (errorRAGResult e rt).content =
            some "Извините, произошла ошибка при обработке вашего запроса. Попробуйте позже.")
    ∧ ((process_query search gen query session_context rt).success = true →
        ∃ r, gen (_build_messages query (_retrieve_context search)
            session_context) = .ok r ∧ r.success = true) := by
  refine ⟨?_, ?_, ?_⟩
  · intro e he
    subst he
    rfl
  · intro e he
    refine ⟨?_, rfl, rfl⟩
    rw [process_query, processQueryBody]
    simp only [bind, Except.bind, he]
  · intro hs
    rw [process_query, processQueryBody] at hs
    cases hgen : gen (_build_messages query (_retrieve_context search)
        session_context) with
    | error e =>
      simp only [bind, Except.bind, hgen] at hs
      simp [errorRAGResult] at hs
    | ok r =>
      simp only [bind, Except.bind, hgen, pure, Except.pure] at hs
      exact ⟨r, rfl, hs⟩

/-- Closed instance of `C9_orchestrator_boundary`: with the retrieval
collaborator and the generation collaborator both raising, `process_query`
returns the generic error record with `success = false`. -/
theorem C9_orchestrator_boundary_witness :
    process_query (.error "db down") (fun _ => .error "llm down") "q" [] 0 =
      errorRAGResult "llm down" 0 ∧
    (errorRAGResult "llm down" 0).success = false :=
  have h := (C9_orchestrator_boundary (.error "db down")
    (fun _ => .error "llm down") "q" [] 0).2.1 "llm down" rfl
  ⟨h.1, h.2.1⟩

theorem getD_set_self {α : Type} (l : List α) (n : Nat) (v : α)
    (d : α) (h : n < l.length) : (l.set n v).getD n d = v := by
  induction l generalizing n with
  | nil => simp at h
  | cons a l ih =>
    cases n with
    | zero => rfl
    | succ n => exact ih n (by simpa using h)

theorem getD_set_ne {α : Type} (l : List α) (n m : Nat) (v d : α)
    (h : m ≠ n) : (l.set n v).getD m d = l.getD m d := by
  induction l generalizing n m with
  | nil => rfl
  | cons a l ih =>
    cases n with
    | zero =>
      cases m with
      | zero => exact absurd rfl h
      | succ m => rfl
    | succ n =>
      cases m with
      | zero => rfl
      | succ m => exact ih n m (fun hh => h (by omega))

theorem getD_append_self {α : Type} (l : List α) (v d : α) :
    (l ++ [v]).getD l.length d = v := by
  rw [List.getD_append_right l [v] d l.length (le_refl _)]
  simp [List.getD]

theorem getCell_alloc_old (σ : PyListStore) (v : List Turn) (r : Nat)
    (h : r < σ.cells.length) : getCell (allocCell σ v).1 r = getCell σ r := by
  simp only [getCell, allocCell]
  exact List.getD_append _ _ _ _ h

theorem getCell_alloc_new (σ : PyListStore) (v : List Turn) :
    getCell (allocCell σ v).1 (allocCell σ v).2 = v := by
  simp only [getCell, allocCell]
  exact getD_append_self _ _ _

theorem getCell_setCell_self (σ : PyListStore) (r : Nat) (v : List Turn)
    (h : r < σ.cells.length) : getCell (setCell σ r v) r = v := by
  simp only [getCell, setCell]
  exact getD_set_self _ _ _ _ h

theorem getCell_setCell_ne (σ : PyListStore) (r r2 : Nat) (v : List Turn)
    (h : r2 ≠ r) : getCell (setCell σ r v) r2 = getCell σ r2 := by
  simp only [getCell, setCell]
  exact getD_set_ne _ _ _ _ _ h

theorem cells_length_setCell (σ : PyListStore) (r : Nat) (v : List Turn) :
    (setCell σ r v).cells.length = σ.cells.length := by
  simp [setCell]

theorem cells_length_alloc (σ : PyListStore) (v : List Turn) :
    (allocCell σ v).1.cells.length = σ.cells.length + 1 := by
  simp [allocCell]

/-- C10: `update_conversation_history` is non-destructive — the caller's list
object is left unchanged, because `history.copy()` allocates a fresh object,
both `append` calls mutate only that fresh object, and the final slice
allocates yet another object.  The returned object holds exactly the value of
the pure `update_conversation_history` (append both turns in order, keep the
last `2 * limit`). -/
theorem C10_update_nondestructive (limit : Nat) (σ : PyListStore) (href : Nat)
    (u a : String) (t1 t2 : ℚ) (hh : href < σ.cells.length) :
    getCell (update_conversation_history_st limit σ href u a t1 t2).1 href =
      getCell σ href
    ∧ getCell (update_conversation_history_st limit σ href u a t1 t2).1
        (update_conversation_history_st limit σ href u a t1 t2).2 =
      update_conversation_history limit (getCell σ href) u a t1 t2 := by
  have hga : getCell (allocCell σ (getCell σ href)).1
      (allocCell σ (getCell σ href)).2 = getCell σ href :=
    getCell_alloc_new σ _
  have hfresh2 : (allocCell σ (getCell σ href)).2 = σ.cells.length := rfl
  have hfreshlt : (allocCell σ (getCell σ href)).2 <
      (allocCell σ (getCell σ href)).1.cells.length := by
    rw [hfresh2, cells_length_alloc]
    omega
  have hne : href ≠ (allocCell σ (getCell σ href)).2 := by
    rw [hfresh2]
    omega
  simp only [update_conversation_history_st, update_conversation_history]
  rw [hga]
  rw [getCell_setCell_self _ _ _ hfreshlt]
  rw [getCell_setCell_self _ _ _ (by rw [cells_length_setCell]; exact hfreshlt)]
  constructor
  · split
    · rw [getCell_alloc_old]
      · rw [getCell_setCell_ne _ _ _ _ hne, getCell_setCell_ne _ _ _ _ hne,
          getCell_alloc_old _ _ _ hh]
      · rw [cells_length_setCell, cells_length_setCell, cells_length_alloc]
        omega
    · rw [getCell_setCell_ne _ _ _ _ hne, getCell_setCell_ne _ _ _ _ hne,
        getCell_alloc_old _ _ _ hh]
  · split
    · rw [getCell_alloc_new]
    · rw [getCell_setCell_self _ _ _ (by rw [cells_length_setCell]; exact hfreshlt)]

/-- Closed instance of `C10_update_nondestructive`: after updating, the
caller's stored one-turn history reads back unchanged. -/
theorem C10_update_nondestructive_witness :
    0 < (⟨[[{ role := "user", content := "old", timestamp := 0 }]]⟩ :
      PyListStore).cells.length ∧
    getCell (update_conversation_history_st 10
        ⟨[[{ role := "user", content := "old", timestamp := 0 }]]⟩ 0
        "q" "a" 0 0).1 0 =
      getCell (⟨[[{ role := "user", content := "old", timestamp := 0 }]]⟩ :
        PyListStore) 0 :=
  ⟨by simp,
    (C10_update_nondestructive 10
      ⟨[[{ role := "user", content := "old", timestamp := 0 }]]⟩ 0
      "q" "a" 0 0 (by simp)).1⟩

end ChatbotSupport
